import Mathlib

/-
Verification of the vector-index core of the BD_post_creator repository.

The embedding translates `src/services/faiss_service.py` (normalization,
partition store, metadata log, single-partition search), the faiss flat
inner-product index it drives (modelled as an exhaustive search over the
stored `(id, vector)` pairs), and the fan-out / session-tracking layer of
`src/controller.py` together with the chunking helper of
`src/services/text_indexer.py`.

Modelling conventions:
- 32-bit floats are idealized as real numbers, so "score about 1.0 within
  floating-point tolerance" becomes exact equality with 1.
- a numpy array is a shape together with its rows; `shape.length` plays the
  role of `ndim`.
- the two on-disk artifacts of a partition are a `PartitionDisk`; writes to
  them are explicit `WEvent` values so that the write order of a `store`
  call is visible to the theorems.
- a metadata-log line is either a well-formed `{id, payload}` record, a
  whitespace-only line, or an unparseable line; this mirrors the three
  outcomes of the `json.loads` / key-extraction block in `_read_meta_map`.
- Python exceptions become values of `PyErr`.
-/

/-- Shape-carrying array of real rows, standing for a numpy float array. -/
structure NDArr where
  shape : List Nat
  rows : List (List ℝ)

/-- Well-formedness of a rank-2 array of width d: the shape is honest. -/
def NDArr.WF2 (a : NDArr) (d : Nat) : Prop :=
  a.shape = [a.rows.length, d] ∧ ∀ r ∈ a.rows, r.length = d

/-- Python exception values surfaced by the translated code. -/
inductive PyErr where
  | valueError (msg : String)
  | httpError (status : Nat) (detail : String)
  | indexError (msg : String)
deriving DecidableEq

/-- Sum of squares of a row, the square of its L2 norm. -/
def sumSq (l : List ℝ) : ℝ := (l.map fun x => x * x).sum

/-- Inner product of two rows (trailing elements of the longer row ignored). -/
def dot (u v : List ℝ) : ℝ := (List.zipWith (· * ·) u v).sum

/-- L2 norm of a row, `np.linalg.norm(row)`. -/
noncomputable def l2norm (l : List ℝ) : ℝ := Real.sqrt (sumSq l)

/-- Row step of `_normalize_embeddings`: zero norms are replaced by 1
(`norms[norms == 0] = 1.0`) and the row is divided by the result. -/
noncomputable def normalizeRow (r : List ℝ) : List ℝ :=
  let n := l2norm r
  let n := if n = 0 then 1 else n
  r.map (· / n)

/-- Translation of `_normalize_embeddings`: reject arrays that are not
rank-2, then normalize each row. -/
noncomputable def normalize_embeddings (a : NDArr) : Except PyErr NDArr :=
  if a.shape.length ≠ 2 then
    .error (.valueError "embeddings must be a 2D array [n, d]")
  else
    .ok ⟨a.shape, a.rows.map normalizeRow⟩

/-- One line of the metadata jsonl file: a parsed `{id, payload}` record, a
whitespace-only line, or a line on which the parse raises. -/
inductive MetaLine where
  | record (id : Int) (payload : String)
  | blank
  | garbage (s : String)
deriving DecidableEq

/-- Whether a metadata line is a well-formed record. -/
def MetaLine.isRecord : MetaLine → Bool
  | .record _ _ => true
  | _ => false

/-- Translation of `_read_meta_map`: fold the lines left to right, skipping
blank lines and lines whose parse fails, later records overwriting earlier
ones for the same id. -/
def readMetaMap (lines : List MetaLine) : Int → Option String :=
  lines.foldl
    (fun m l =>
      match l with
      | .record i p => fun j => if j = i then some p else m j
      | .blank => m
      | .garbage _ => m)
    (fun _ => none)

/-- In-memory faiss index as persisted to disk: an `IndexFlatIP` of
dimension `d` wrapped in an `IndexIDMap2`, i.e. the stored `(id, vector)`
pairs in insertion order. -/
structure IndexData where
  d : Nat
  entries : List (Int × List ℝ)

/-- Number of stored vectors, `index.ntotal`. -/
def IndexData.ntotal (i : IndexData) : Nat := i.entries.length

/-- On-disk state of one partition: the optional index artifact and the
optional metadata log. -/
structure PartitionDisk where
  indexFile : Option IndexData
  metaFile : Option (List MetaLine)

/-- Lines of the metadata log; a missing file reads as no lines. -/
def metaLines (disk : PartitionDisk) : List MetaLine := disk.metaFile.getD []

/-- Translation of `_current_count`: 0 when the file is missing, otherwise
the number of lines in the file (all lines, not only parseable ones). -/
def currentCount (disk : PartitionDisk) : Nat := (metaLines disk).length

/-- A write against the partition's on-disk state: overwriting the index
artifact (`faiss.write_index`) or appending lines to the metadata log. -/
inductive WEvent where
  | writeIndex (idx : IndexData)
  | appendMeta (ls : List MetaLine)

/-- Effect of one write event on the partition's disk state. -/
def applyEvent (d : PartitionDisk) : WEvent → PartitionDisk
  | .writeIndex i => { d with indexFile := some i }
  | .appendMeta ls => { d with metaFile := some (metaLines d ++ ls) }

/-- Effect of a sequence of write events, in order. -/
def applyEvents (d : PartitionDisk) (es : List WEvent) : PartitionDisk :=
  es.foldl applyEvent d

/-- Translation of `get_or_create_index`: a missing artifact is replaced by
a freshly created empty index which is saved at once (one write event); an
existing artifact of the wrong dimension raises HTTP 400. -/
def get_or_create_index (disk : PartitionDisk) (partition : String)
    (dimension : Nat) : Except PyErr IndexData × List WEvent :=
  match disk.indexFile with
  | none =>
    let idx : IndexData := ⟨dimension, []⟩
    (.ok idx, [.writeIndex idx])
  | some idx =>
    if idx.d ≠ dimension then
      (.error (.httpError 400
        ("Dimension mismatch for partition " ++ partition)), [])
    else
      (.ok idx, [])

/-- Translation of `store_embeddings`, returning the assigned ids together
with the ordered list of disk writes the call performs. The steps follow
the source: arity check, normalization, `get_or_create_index` on the
normalized width, id assignment from the metadata line count,
`add_with_ids` plus `save_index`, then `_append_meta`. -/
noncomputable def store_embeddings (partition : String) (disk : PartitionDisk)
    (embeddings : NDArr) (payloads : List String) :
    Except PyErr (List Int) × List WEvent :=
  match embeddings.shape with
  | [] => (.error (.indexError "tuple index out of range"), [])
  | n0 :: _ =>
    if n0 ≠ payloads.length then
      (.error (.valueError "Number of embeddings and payloads must match"), [])
    else
      match normalize_embeddings embeddings with
      | .error e => (.error e, [])
      | .ok emb =>
        match (get_or_create_index disk partition (emb.shape.getD 1 0)).1 with
        | .error e =>
          (.error e, (get_or_create_index disk partition (emb.shape.getD 1 0)).2)
        | .ok idx =>
          let c := currentCount disk
          let ids : List Int := (List.range n0).map fun i => ((c + i : Nat) : Int)
          let idx1 : IndexData := ⟨idx.d, idx.entries ++ ids.zip emb.rows⟩
          (.ok ids,
            (get_or_create_index disk partition (emb.shape.getD 1 0)).2
              ++ [.writeIndex idx1,
                .appendMeta ((ids.zip payloads).map fun ip => .record ip.1 ip.2)])

/-- A `store_embeddings` call together with the disk state it leaves
behind: the returned value and the initial state updated by the call's
writes. -/
noncomputable def storeRun (partition : String) (disk : PartitionDisk)
    (embeddings : NDArr) (payloads : List String) :
    Except PyErr (List Int) × PartitionDisk :=
  let r := store_embeddings partition disk embeddings payloads
  (r.1, applyEvents disk r.2)

/-- Result order of the modelled faiss search: strictly higher score first,
ties broken by lower id. -/
def faissRel (a b : Int × ℝ) : Prop :=
  b.2 < a.2 ∨ (a.2 = b.2 ∧ a.1 ≤ b.1)

noncomputable instance : DecidableRel faissRel := fun a b =>
  inferInstanceAs (Decidable (b.2 < a.2 ∨ (a.2 = b.2 ∧ a.1 ≤ b.1)))

instance : IsTotal (Int × ℝ) faissRel :=
  ⟨fun a b => by
    rcases lt_trichotomy a.2 b.2 with h | h | h
    · exact Or.inr (Or.inl h)
    · rcases le_total a.1 b.1 with h1 | h1
      · exact Or.inl (Or.inr ⟨h, h1⟩)
      · exact Or.inr (Or.inr ⟨h.symm, h1⟩)
    · exact Or.inl (Or.inl h)⟩

instance : IsTrans (Int × ℝ) faissRel :=
  ⟨fun a b c hab hbc => by
    rcases hab with h1 | ⟨h1, h1'⟩
    · rcases hbc with h2 | ⟨h2, _⟩
      · exact Or.inl (h2.trans h1)
      · exact Or.inl (h2 ▸ h1)
    · rcases hbc with h2 | ⟨h2, h2'⟩
      · exact Or.inl (h1 ▸ h2)
      · exact Or.inr ⟨h1.trans h2, h1'.trans h2'⟩⟩

/-- Modelled from the faiss library (not part of this repository): one
query row against an `IndexFlatIP` under an `IndexIDMap2` computes the
inner product with every stored vector, returns the `k` best pairs ordered
by `faissRel`, and pads with the sentinel id -1 when fewer than `k` vectors
are stored. -/
noncomputable def faissSearchRow (idx : IndexData) (k : Nat) (q : List ℝ) :
    List (Int × ℝ) :=
  let scored := idx.entries.map fun e => (e.1, dot e.2 q)
  let top := (List.insertionSort faissRel scored).take k
  top ++ List.replicate (k - top.length) ((-1 : Int), 0)

/-- Translation of `search_embeddings`: a missing or empty index raises the
single HTTP 404 error, then the query is normalized, every query row is
searched, sentinel ids are skipped and payloads are resolved through
`_read_meta_map` with default empty string. -/
noncomputable def search_embeddings (partition : String) (disk : PartitionDisk)
    (query : NDArr) (top_k : Nat) :
    Except PyErr (List (List (Int × ℝ × String))) :=
  match disk.indexFile with
  | none => .error (.httpError 404 ("No index found for partition " ++ partition))
  | some idx =>
    if idx.ntotal = 0 then
      .error (.httpError 404 ("No index found for partition " ++ partition))
    else
      match normalize_embeddings query with
      | .error e => .error e
      | .ok qn =>
        let map := readMetaMap (metaLines disk)
        .ok (qn.rows.map fun qrow =>
          ((faissSearchRow idx top_k qrow).filter fun t => t.1 != -1).map
            fun t => (t.1, t.2, (map t.1).getD ""))

/-- Reading the partition back from its on-disk artifacts, as a process
restart would: `load_index` returns exactly the saved artifact and the
metadata log is reread from the same file. -/
def reloadPartition (d : PartitionDisk) : PartitionDisk :=
  ⟨d.indexFile, d.metaFile⟩

/-- A sequence of `store_embeddings` calls against one partition, stopping
at the first raised error, collecting the id lists of the successful calls. -/
noncomputable def runStores (partition : String) (disk : PartitionDisk) :
    List (NDArr × List String) → Except PyErr (List (List Int)) × PartitionDisk
  | [] => (.ok [], disk)
  | b :: bs =>
    match (storeRun partition disk b.1 b.2).1 with
    | .error e => (.error e, (storeRun partition disk b.1 b.2).2)
    | .ok ids =>
      match (runStores partition (storeRun partition disk b.1 b.2).2 bs).1 with
      | .error e =>
        (.error e, (runStores partition (storeRun partition disk b.1 b.2).2 bs).2)
      | .ok idss =>
        (.ok (ids :: idss), (runStores partition (storeRun partition disk b.1 b.2).2 bs).2)

/-- Partition name to on-disk state: the `faiss_indices` directory. -/
def FS := String → PartitionDisk

/-- Fresh partition: neither artifact exists yet. -/
def freshDisk : PartitionDisk := ⟨none, none⟩

/-- Fresh directory: no partition has any artifact. -/
def freshFS : FS := fun _ => freshDisk

/-- Whether an `Except` carries a success value. -/
def exceptOk {ε α : Type} : Except ε α → Bool
  | .ok _ => true
  | .error _ => false

/-- A `store_embeddings` call addressed through the directory: only the
named partition's files change. -/
noncomputable def fsStore (fs : FS) (partition : String) (emb : NDArr)
    (payloads : List String) : Except PyErr (List Int) × FS :=
  let r := store_embeddings partition (fs partition) emb payloads
  (r.1, fun p => if p = partition then applyEvents (fs partition) r.2 else fs p)

/-- One partition's contribution inside the fan-out loop of `search_text` /
`search_images`: the first result row of a successful search, nothing when
the search raises (the `except Exception: continue`), nothing when there is
no result row. -/
noncomputable def partRow (fs : FS) (q : NDArr) (k : Nat) (part : String) :
    List (Int × ℝ × String) :=
  match search_embeddings part (fs part) q k with
  | .error _ => []
  | .ok rows => rows.headD []

/-- The `aggregated` list of the fan-out loop: for each tracked partition in
iteration order, the `(score, id, payload)` reorderings of its first result
row, concatenated. -/
noncomputable def collectTriples (parts : List String) (fs : FS) (q : NDArr)
    (k : Nat) : List (ℝ × Int × String) :=
  (parts.map fun part => (partRow fs q k part).map fun t => (t.2.1, t.1, t.2.2)).flatten

/-- Order used by `aggregated.sort(key=..., reverse=True)`: descending by
score. -/
def aggRel (a b : ℝ × Int × String) : Prop := b.1 ≤ a.1

noncomputable instance : DecidableRel aggRel := fun a b =>
  inferInstanceAs (Decidable (b.1 ≤ a.1))

instance : IsTotal (ℝ × Int × String) aggRel :=
  ⟨fun a b => le_total b.1 a.1⟩

instance : IsTrans (ℝ × Int × String) aggRel :=
  ⟨fun _ _ _ hab hbc => le_trans hbc hab⟩

/-- Shared tail of both fan-out handlers: sort the aggregated triples by
descending score, truncate to `top_k` globally, and shape each survivor
into an `(id, score, payload)` item. -/
noncomputable def fanoutAggregate (session : List String) (fs : FS)
    (q : NDArr) (k : Nat) : List (Int × ℝ × String) :=
  ((List.insertionSort aggRel (collectTriples session fs q k)).take k).map
    fun t => (t.2.1, t.1, t.2.2)

/-- Fan-out path of `search_text` (no partition supplied): an empty session
set raises HTTP 400, otherwise the merged global ranking is returned. -/
noncomputable def search_text_fanout (session : List String) (fs : FS)
    (q : NDArr) (k : Nat) : Except PyErr (List (Int × ℝ × String)) :=
  if session = [] then
    .error (.httpError 400 "No indexed content in this session")
  else
    .ok (fanoutAggregate session fs q k)

/-- Fan-out path of `search_images`, identical to the text path except for
the session set consulted and the error message. -/
noncomputable def search_images_fanout (session : List String) (fs : FS)
    (q : NDArr) (k : Nat) : Except PyErr (List (Int × ℝ × String)) :=
  if session = [] then
    .error (.httpError 400 "No indexed images in this session")
  else
    .ok (fanoutAggregate session fs q k)

/-- Loop of `chunk_text`: slice `[start, min n (start+maxChars))`, stop when
the slice reaches the end, otherwise advance by `sm1 + 1` characters (the
positive step `max(1, max_chars - overlap)`). The first argument is
recursion fuel: since `start` strictly increases and the loop only runs
while `start < n`, at most `n` iterations occur, so fuel `n` reproduces the
Python loop exactly (when fuel runs out, `start` is already at least `n`
and the loop would have stopped anyway). -/
def chunkLoop (cs : List Char) (n maxChars sm1 : Nat) :
    Nat → Nat → List String
  | 0, _ => []
  | fuel + 1, start =>
    if start < n then
      let e := min n (start + maxChars)
      let chunk := String.mk ((cs.drop start).take (e - start))
      if e = n then [chunk]
      else chunk :: chunkLoop cs n maxChars sm1 fuel (start + (sm1 + 1))
    else []

/-- Translation of `chunk_text`: empty text gives no chunks; an overlap not
smaller than the window is shrunk to a fifth of the window; then the
windowed slices are collected. -/
def chunk_text (text : String) (maxChars overlap : Nat) : List String :=
  if text = "" then []
  else
    let ov := if overlap ≥ maxChars then maxChars / 5 else overlap
    let n := text.toList.length
    chunkLoop text.toList n maxChars (maxChars - ov - 1) n 0

/-- Translation of `index_text_corpus`: chunk with the default window, do
nothing (and store nothing) when there are no chunks, otherwise embed the
chunks (black-box model `embedT`) and store them with the chunks as
payloads. -/
noncomputable def index_text_corpus (embedT : List String → NDArr) (fs : FS)
    (text : String) (partition : String) : Except PyErr (List Int) × FS :=
  let chunks := chunk_text text 1000 100
  if chunks = [] then (.ok [], fs)
  else fsStore fs partition (embedT chunks) chunks

/-- Translation of `index_image_paths`: an empty path list stores nothing,
otherwise the embedded images (black-box model `embedI`) are stored with
the paths as payloads. -/
noncomputable def index_image_paths (embedI : List String → NDArr) (fs : FS)
    (image_paths : List String) (partition : String) :
    Except PyErr (List Int) × FS :=
  if image_paths = [] then (.ok [], fs)
  else fsStore fs partition (embedI image_paths) image_paths

/-- The two session fan-out sets of `controller.py`. -/
structure Session where
  textParts : List String
  imageParts : List String

/-- Set insertion, `set.add`. -/
def insertSet (x : String) (s : List String) : List String :=
  if x ∈ s then s else s ++ [x]

/-- Indexing block of the `parse_web_url` handler: index the extracted text
and images, and only if neither step raises add both partitions to the
session sets; a raise anywhere keeps the session sets unchanged while
keeping whatever was already written to disk. -/
noncomputable def parse_web_url (embedT embedI : List String → NDArr)
    (fs : FS) (session : Session) (text_content : String)
    (image_files : List String) : FS × Session :=
  match index_text_corpus embedT fs text_content "web_url_text" with
  | (.error _, fs1) => (fs1, session)
  | (.ok _, fs1) =>
    match index_image_paths embedI fs1 image_files "web_url_images" with
    | (.error _, fs2) => (fs2, session)
    | (.ok _, fs2) =>
      (fs2,
        { textParts := insertSet "web_url_text" session.textParts
          imageParts := insertSet "web_url_images" session.imageParts })

/-- Indexing block of the `parse_document` handler, identical to the web
handler up to the partition names. -/
noncomputable def parse_document (embedT embedI : List String → NDArr)
    (fs : FS) (session : Session) (text_content : String)
    (image_files : List String) : FS × Session :=
  match index_text_corpus embedT fs text_content "doc_text" with
  | (.error _, fs1) => (fs1, session)
  | (.ok _, fs1) =>
    match index_image_paths embedI fs1 image_files "doc_images" with
    | (.error _, fs2) => (fs2, session)
    | (.ok _, fs2) =>
      (fs2,
        { textParts := insertSet "doc_text" session.textParts
          imageParts := insertSet "doc_images" session.imageParts })

/-- Order on result triples `(id, score, payload)`: higher score first,
ties broken by lower id. -/
def tripleRel (a b : Int × ℝ × String) : Prop :=
  b.2.1 < a.2.1 ∨ (a.2.1 = b.2.1 ∧ a.1 ≤ b.1)

/-- Order on result triples: weakly descending score. -/
def scoreDesc (a b : Int × ℝ × String) : Prop := b.2.1 ≤ a.2.1

lemma sumSq_nil : sumSq [] = 0 := rfl

lemma sumSq_cons (x : ℝ) (l : List ℝ) : sumSq (x :: l) = x * x + sumSq l := by
  simp [sumSq]

lemma sumSq_nonneg (l : List ℝ) : 0 ≤ sumSq l := by
  induction l with
  | nil => simp [sumSq]
  | cons x t ih => rw [sumSq_cons]; nlinarith [mul_self_nonneg x]

lemma dot_nil_left (v : List ℝ) : dot [] v = 0 := rfl

lemma dot_nil_right (u : List ℝ) : dot u [] = 0 := by cases u <;> rfl

lemma dot_cons (x y : ℝ) (u v : List ℝ) :
    dot (x :: u) (y :: v) = x * y + dot u v := by
  simp [dot]

lemma dot_self (l : List ℝ) : dot l l = sumSq l := by
  induction l with
  | nil => rfl
  | cons x t ih => rw [dot_cons, sumSq_cons, ih]

lemma two_dot_le (u : List ℝ) : ∀ v : List ℝ, 2 * dot u v ≤ sumSq u + sumSq v := by
  induction u with
  | nil =>
    intro v
    rw [dot_nil_left, sumSq_nil]
    nlinarith [sumSq_nonneg v]
  | cons x t ih =>
    intro v
    cases v with
    | nil =>
      rw [dot_nil_right, sumSq_nil]
      nlinarith [sumSq_nonneg (x :: t)]
    | cons y s =>
      have h := ih s
      rw [dot_cons, sumSq_cons, sumSq_cons]
      nlinarith [sq_nonneg (x - y)]

lemma dot_le_one {u v : List ℝ} (hu : sumSq u ≤ 1) (hv : sumSq v ≤ 1) :
    dot u v ≤ 1 := by
  have h := two_dot_le u v
  linarith

lemma sumSq_eq_zero_iff {l : List ℝ} : sumSq l = 0 ↔ ∀ x ∈ l, x = 0 := by
  induction l with
  | nil => simp [sumSq]
  | cons x t ih =>
    rw [sumSq_cons]
    constructor
    · intro h
      have hx : 0 ≤ x * x := mul_self_nonneg x
      have ht : 0 ≤ sumSq t := sumSq_nonneg t
      have hx0 : x * x = 0 := by linarith
      have ht0 : sumSq t = 0 := by linarith
      intro y hy
      rcases List.mem_cons.1 hy with rfl | hy
      · exact mul_self_eq_zero.1 hx0
      · exact ih.1 ht0 y hy
    · intro h
      have hx : x = 0 := h x (List.mem_cons_self x t)
      have ht : sumSq t = 0 := ih.2 fun y hy => h y (List.mem_cons_of_mem x hy)
      rw [hx, ht]
      ring

lemma sumSq_zip_sub (u : List ℝ) : ∀ v : List ℝ, u.length = v.length →
    sumSq (List.zipWith (· - ·) u v) = sumSq u - 2 * dot u v + sumSq v := by
  induction u with
  | nil =>
    intro v hv
    have : v = [] := List.eq_nil_of_length_eq_zero hv.symm
    subst this
    simp [sumSq, dot]
  | cons x t ih =>
    intro v hv
    cases v with
    | nil => simp at hv
    | cons y s =>
      have hl : t.length = s.length := by simpa using hv
      have h := ih s hl
      simp only [List.zipWith_cons_cons, sumSq_cons, dot_cons]
      rw [h]
      ring

lemma eq_of_zip_sub_zero (u : List ℝ) : ∀ v : List ℝ, u.length = v.length →
    (∀ x ∈ List.zipWith (· - ·) u v, x = 0) → u = v := by
  induction u with
  | nil =>
    intro v hv _
    exact (List.eq_nil_of_length_eq_zero hv.symm).symm
  | cons x t ih =>
    intro v hv hz
    cases v with
    | nil => simp at hv
    | cons y s =>
      have hl : t.length = s.length := by simpa using hv
      simp only [List.zipWith_cons_cons] at hz
      have hx : x - y = 0 := hz _ (List.mem_cons_self _ _)
      have ht : t = s := ih s hl fun z hzz => hz z (List.mem_cons_of_mem _ hzz)
      rw [sub_eq_zero.1 hx, ht]

lemma dot_eq_one_imp_eq {u v : List ℝ} (hl : u.length = v.length)
    (hu : sumSq u ≤ 1) (hv : sumSq v = 1) (hd : dot u v = 1) : u = v := by
  have hexp := sumSq_zip_sub u v hl
  have hnn := sumSq_nonneg (List.zipWith (· - ·) u v)
  have hzero : sumSq (List.zipWith (· - ·) u v) = 0 := by
    rw [hexp, hd, hv]
    linarith
  exact eq_of_zip_sub_zero u v hl (sumSq_eq_zero_iff.1 hzero)

lemma normalizeRow_length (r : List ℝ) : (normalizeRow r).length = r.length := by
  simp [normalizeRow]

lemma l2norm_eq_zero_iff {r : List ℝ} : l2norm r = 0 ↔ sumSq r = 0 := by
  rw [l2norm, Real.sqrt_eq_zero']
  constructor
  · intro h
    have := sumSq_nonneg r
    linarith
  · intro h
    linarith

lemma normalizeRow_of_zero {r : List ℝ} (h : sumSq r = 0) : normalizeRow r = r := by
  have hn : l2norm r = 0 := l2norm_eq_zero_iff.2 h
  simp [normalizeRow, hn]

lemma sumSq_map_div (r : List ℝ) (c : ℝ) :
    sumSq (r.map (· / c)) = sumSq r / (c * c) := by
  induction r with
  | nil => simp [sumSq]
  | cons x t ih =>
    simp only [List.map_cons, sumSq_cons, ih]
    rw [div_mul_div_comm, add_div]

lemma normalizeRow_of_pos {r : List ℝ} (h : l2norm r ≠ 0) :
    normalizeRow r = r.map (· / l2norm r) := by
  simp [normalizeRow, h]

lemma l2norm_mul_self {r : List ℝ} : l2norm r * l2norm r = sumSq r :=
  Real.mul_self_sqrt (sumSq_nonneg r)

lemma sumSq_normalizeRow_eq_one {r : List ℝ} (h : 0 < sumSq r) :
    sumSq (normalizeRow r) = 1 := by
  have hn : l2norm r ≠ 0 := fun h0 => absurd (l2norm_eq_zero_iff.1 h0) (by linarith)
  rw [normalizeRow_of_pos hn, sumSq_map_div, l2norm_mul_self]
  exact div_self (by linarith)

lemma sumSq_normalizeRow_le_one (r : List ℝ) : sumSq (normalizeRow r) ≤ 1 := by
  by_cases h : l2norm r = 0
  · have h0 : sumSq r = 0 := l2norm_eq_zero_iff.1 h
    rw [normalizeRow_of_zero h0, h0]
    norm_num
  · have hpos : 0 < sumSq r := by
      rcases lt_or_eq_of_le (sumSq_nonneg r) with hp | hp
      · exact hp
      · exact absurd (l2norm_eq_zero_iff.2 hp.symm) h
    rw [sumSq_normalizeRow_eq_one hpos]

lemma normalize_ok {a b : NDArr} (h : normalize_embeddings a = .ok b) :
    b.shape = a.shape ∧ b.rows = a.rows.map normalizeRow ∧ a.shape.length = 2 := by
  unfold normalize_embeddings at h
  split at h
  · simp at h
  · next h2 =>
    simp only [Except.ok.injEq] at h
    refine ⟨?_, ?_, by omega⟩
    · rw [← h]
    · rw [← h]

lemma get_or_create_ok {disk : PartitionDisk} {part : String} {dim : Nat}
    {idx : IndexData}
    (h : (get_or_create_index disk part dim).1 = .ok idx) :
    idx.d = dim ∧
    ((disk.indexFile = none ∧ idx = ⟨dim, []⟩ ∧
        (get_or_create_index disk part dim).2 = [WEvent.writeIndex idx]) ∨
      (disk.indexFile = some idx ∧ (get_or_create_index disk part dim).2 = [])) := by
  cases hif : disk.indexFile with
  | none =>
    have hred : get_or_create_index disk part dim
        = (.ok ⟨dim, []⟩, [WEvent.writeIndex ⟨dim, []⟩]) := by
      simp only [get_or_create_index, hif]
    rw [hred] at h
    simp only [Except.ok.injEq] at h
    subst h
    exact ⟨rfl, Or.inl ⟨rfl, rfl, by rw [hred]⟩⟩
  | some idx0 =>
    by_cases hd : idx0.d ≠ dim
    · simp [get_or_create_index, hif, hd] at h
    · have hd' : idx0.d = dim := not_not.1 hd
      have hred : get_or_create_index disk part dim = (.ok idx0, []) := by
        simp [get_or_create_index, hif, hd']
      rw [hred] at h
      simp only [Except.ok.injEq] at h
      subst h
      exact ⟨hd', Or.inr ⟨rfl, by rw [hred]⟩⟩

lemma store_ok_main {part : String} {disk : PartitionDisk} {emb : NDArr}
    {pls : List String} {ids : List Int} {es : List WEvent}
    (h : store_embeddings part disk emb pls = (.ok ids, es)) :
    ids = (List.range pls.length).map
        (fun i => ((currentCount disk + i : Nat) : Int)) ∧
    ∃ iws : List IndexData, es = iws.map WEvent.writeIndex ++
      [WEvent.appendMeta ((ids.zip pls).map fun ip => MetaLine.record ip.1 ip.2)] := by
  unfold store_embeddings at h
  split at h
  · simp only [Prod.mk.injEq] at h
    exact absurd h.1 (by simp)
  · next n0 rest hs =>
    split at h
    · simp only [Prod.mk.injEq] at h
      exact absurd h.1 (by simp)
    · next harity =>
      have hn0 : n0 = pls.length := not_not.1 harity
      split at h
      · simp only [Prod.mk.injEq] at h
        exact absurd h.1 (by simp)
      · next embN hnorm =>
        split at h
        · simp only [Prod.mk.injEq] at h
          exact absurd h.1 (by simp)
        · next idx hgc =>
          simp only [Prod.mk.injEq, Except.ok.injEq] at h
          obtain ⟨hids, hes⟩ := h
          subst hn0
          rcases (get_or_create_ok hgc).2 with ⟨_, _, hes0⟩ | ⟨_, hes0⟩
          · refine ⟨hids.symm, [idx, ⟨idx.d, idx.entries ++ ids.zip embN.rows⟩], ?_⟩
            rw [← hes, hes0, ← hids]
            rfl
          · refine ⟨hids.symm, [⟨idx.d, idx.entries ++ ids.zip embN.rows⟩], ?_⟩
            rw [← hes, hes0, ← hids]
            rfl

lemma applyEvents_writeIndex_meta (iws : List IndexData) :
    ∀ disk : PartitionDisk,
      (applyEvents disk (iws.map WEvent.writeIndex)).metaFile = disk.metaFile := by
  induction iws with
  | nil => intro disk; rfl
  | cons i t ih => intro disk; exact ih _

lemma applyEvents_append (disk : PartitionDisk) (es1 es2 : List WEvent) :
    applyEvents disk (es1 ++ es2) = applyEvents (applyEvents disk es1) es2 :=
  List.foldl_append _ _ _ _

lemma applyEvents_singleton (d : PartitionDisk) (e : WEvent) :
    applyEvents d [e] = applyEvent d e := rfl

lemma currentCount_after_store {part : String} {disk : PartitionDisk}
    {emb : NDArr} {pls : List String} {ids : List Int} {es : List WEvent}
    (h : store_embeddings part disk emb pls = (.ok ids, es)) :
    currentCount (applyEvents disk es) = currentCount disk + pls.length := by
  obtain ⟨hids, iws, hes⟩ := store_ok_main h
  have hlen : ids.length = pls.length := by
    rw [hids]; simp
  have hmeta := applyEvents_writeIndex_meta iws disk
  rw [hes, applyEvents_append, applyEvents_singleton]
  simp only [applyEvent, currentCount, metaLines, Option.getD_some,
    List.length_append]
  rw [hmeta]
  simp [List.length_zip, hlen]

/-- Identifier blocks as the specification words them: the call with count
`n` starting at persisted count `start` is assigned `start, ..., start+n-1`,
and the next call starts at `start + n`. -/
def specRanges (start : Nat) : List Nat → List (List Int)
  | [] => []
  | n :: ns =>
    ((List.range n).map fun i => ((start + i : Nat) : Int)) :: specRanges (start + n) ns

lemma specRanges_flatten (ns : List Nat) : ∀ start : Nat,
    (specRanges start ns).flatten
      = (List.range' start ns.sum).map fun i => ((i : Nat) : Int) := by
  induction ns with
  | nil => intro start; simp [specRanges]
  | cons n t ih =>
    intro start
    simp only [specRanges, List.flatten_cons, ih, List.sum_cons]
    have hsplit : List.range' start (n + t.sum)
        = List.range' start n ++ List.range' (start + n) t.sum := by
      have h2 := List.range'_append start n t.sum 1
      simp only [one_mul] at h2
      rw [Nat.add_comm n t.sum]
      exact h2.symm
    rw [hsplit, List.map_append]
    congr 1
    rw [List.range'_eq_map_range, List.map_map]
    rfl

lemma runStores_ids {part : String} (batches : List (NDArr × List String)) :
    ∀ (disk : PartitionDisk) (idss : List (List Int)) (d2 : PartitionDisk),
      runStores part disk batches = (.ok idss, d2) →
      idss = specRanges (currentCount disk) (batches.map fun b => b.2.length) := by
  induction batches with
  | nil =>
    intro disk idss d2 h
    unfold runStores at h
    simp only [Prod.mk.injEq, Except.ok.injEq] at h
    rw [← h.1]
    rfl
  | cons b t ih =>
    intro disk idss d2 h
    unfold runStores at h
    split at h
    · simp only [Prod.mk.injEq] at h
      exact absurd h.1 (by simp)
    · next ids hsr =>
      split at h
      · simp only [Prod.mk.injEq] at h
        exact absurd h.1 (by simp)
      · next idss' hrec =>
        simp only [Prod.mk.injEq, Except.ok.injEq] at h
        have hst : store_embeddings part disk b.1 b.2
            = (.ok ids, (store_embeddings part disk b.1 b.2).2) := by
          have h1 : (store_embeddings part disk b.1 b.2).1 = .ok ids := hsr
          exact Prod.ext h1 rfl
        obtain ⟨hids, _, _⟩ := store_ok_main hst
        have hcount : currentCount (storeRun part disk b.1 b.2).2
            = currentCount disk + b.2.length := by
          show currentCount (applyEvents disk _) = _
          exact currentCount_after_store hst
        have hrec' := ih _ idss' _ (Prod.ext hrec rfl)
        rw [← h.1, List.map_cons]
        simp only [specRanges]
        rw [hids, hrec', hcount]

/-- C1: every successful store call returns the Identifiers c, c+1, ...,
c+n-1 in input order, where c is the number of lines currently in the
partition's metadata log, and over any sequence of successful store calls
into a fresh partition the returned Identifier blocks are the consecutive
ranges whose concatenation is exactly 0, 1, ..., sum(ni)-1 with no gaps or
duplicates. -/
theorem spec_c1_identifier_contiguity (part : String)
    (batches : List (NDArr × List String)) (idss : List (List Int))
    (h : (runStores part freshDisk batches).1 = .ok idss) :
    idss = specRanges 0 (batches.map fun b => b.2.length) ∧
    idss.flatten = (List.range (batches.map fun b => b.2.length).sum).map
      (fun i => ((i : Nat) : Int)) ∧
    ∀ (disk : PartitionDisk) (emb : NDArr) (pls : List String)
      (ids : List Int) (es : List WEvent),
      store_embeddings part disk emb pls = (.ok ids, es) →
      ids = (List.range pls.length).map
        fun i => ((currentCount disk + i : Nat) : Int) := by
  have hrun : runStores part freshDisk batches
      = (.ok idss, (runStores part freshDisk batches).2) := Prod.ext h rfl
  have h1 := runStores_ids batches freshDisk idss _ hrun
  have hc0 : currentCount freshDisk = 0 := rfl
  rw [hc0] at h1
  refine ⟨h1, ?_, ?_⟩
  · rw [h1, specRanges_flatten, List.range_eq_range']
  · intro disk emb pls ids es hst
    exact (store_ok_main hst).1

/-- Concrete two-batch scenario used by the witnesses: one 2-vector then
two 2-vectors. -/
def demoBatch1 : NDArr × List String := (⟨[1, 2], [[1, 0]]⟩, ["a"])

/-- Second demo batch. -/
def demoBatch2 : NDArr × List String := (⟨[2, 2], [[0, 1], [1, 1]]⟩, ["b", "c"])

/-- Witness for C1: the two demo batches stored into a fresh partition
return id blocks [0] and [1, 2]. -/
theorem spec_c1_identifier_contiguity_witness :
    (runStores "P" freshDisk [demoBatch1, demoBatch2]).1
      = .ok [[(0 : Int)], [1, 2]] ∧
    ([[(0 : Int)], [1, 2]] : List (List Int)) = specRanges 0 [1, 2] := by
  have hev : (runStores "P" freshDisk [demoBatch1, demoBatch2]).1
      = .ok [[(0 : Int)], [1, 2]] := by rfl
  refine ⟨hev, ?_⟩
  have h := spec_c1_identifier_contiguity "P" [demoBatch1, demoBatch2]
    [[0], [1, 2]] hev
  simpa [demoBatch1, demoBatch2] using h.1

lemma applyEvents_nil (d : PartitionDisk) : applyEvents d [] = d := rfl

/-- C5: a store call whose vector count differs from its payload count
raises the arity ValueError, and a store call against an already-populated
partition whose vector width differs from the partition's established
dimension raises the HTTP 400 dimension error; in both cases the on-disk
index artifact and metadata log are returned unchanged. -/
theorem spec_c5_failed_preconditions (part : String) (disk : PartitionDisk)
    (emb : NDArr) (pls : List String) :
    (∀ n0 rest, emb.shape = n0 :: rest → n0 ≠ pls.length →
      storeRun part disk emb pls
        = (.error (.valueError "Number of embeddings and payloads must match"),
            disk)) ∧
    (∀ idx d, disk.indexFile = some idx → idx.entries ≠ [] →
      emb.shape = [pls.length, d] → idx.d ≠ d →
      storeRun part disk emb pls
        = (.error (.httpError 400 ("Dimension mismatch for partition " ++ part)),
            disk)) := by
  constructor
  · intro n0 rest hshape hne
    have hst : store_embeddings part disk emb pls
        = (.error (.valueError "Number of embeddings and payloads must match"),
            []) := by
      unfold store_embeddings
      rw [hshape]
      exact if_pos hne
    simp [storeRun, hst, applyEvents_nil]
  · intro idx d hidx hne hshape hd
    have hnorm : normalize_embeddings emb
        = .ok ⟨emb.shape, emb.rows.map normalizeRow⟩ := by
      unfold normalize_embeddings
      rw [if_neg (by rw [hshape]; simp)]
    have hgc : get_or_create_index disk part d
        = (.error (.httpError 400 ("Dimension mismatch for partition " ++ part)),
            []) := by
      unfold get_or_create_index
      rw [hidx]
      exact if_pos hd
    have hst : store_embeddings part disk emb pls
        = (.error (.httpError 400 ("Dimension mismatch for partition " ++ part)),
            []) := by
      simp [store_embeddings, hshape, hnorm, hgc]
    simp [storeRun, hst, applyEvents_nil]

/-- Witness for C5: a 2-vector call with one payload raises the arity
error and leaves the fresh disk untouched; a width-2 store into a
partition holding width-3 vectors raises the dimension error and leaves
the populated disk untouched. -/
theorem spec_c5_failed_preconditions_witness :
    ((⟨[2, 1], [[1], [2]]⟩ : NDArr).shape = 2 :: [1] ∧ (2 : Nat) ≠ ["x"].length) ∧
    storeRun "P" freshDisk ⟨[2, 1], [[1], [2]]⟩ ["x"]
      = (.error (.valueError "Number of embeddings and payloads must match"),
          freshDisk) ∧
    storeRun "P" ⟨some ⟨3, [(0, [0, 0, 0])]⟩, some [.record 0 "x"]⟩
        ⟨[1, 2], [[1, 0]]⟩ ["y"]
      = (.error (.httpError 400 ("Dimension mismatch for partition " ++ "P")),
          ⟨some ⟨3, [(0, [0, 0, 0])]⟩, some [.record 0 "x"]⟩) := by
  refine ⟨⟨rfl, by decide⟩, ?_, ?_⟩
  · exact (spec_c5_failed_preconditions "P" freshDisk ⟨[2, 1], [[1], [2]]⟩
      ["x"]).1 2 [1] rfl (by decide)
  · exact (spec_c5_failed_preconditions "P" _ ⟨[1, 2], [[1, 0]]⟩ ["y"]).2
      ⟨3, [(0, [0, 0, 0])]⟩ 2 rfl (by simp) rfl (by decide)

/-- C6 (amended): search against a partition with no on-disk artifact and
search against a partition whose artifact holds zero vectors both fail, but
with one and the same typed error, HTTP 404 with the not-found detail; the
code does not produce a distinct PartitionEmpty failure. -/
theorem spec_c6_empty_state_errors (part : String) (disk : PartitionDisk)
    (q : NDArr) (k : Nat)
    (h : disk.indexFile = none ∨
      ∃ idx, disk.indexFile = some idx ∧ idx.entries = []) :
    search_embeddings part disk q k
      = .error (.httpError 404 ("No index found for partition " ++ part)) := by
  rcases h with h | ⟨idx, h, hemp⟩
  · simp [search_embeddings, h]
  · simp [search_embeddings, h, IndexData.ntotal, hemp]

/-- Counterexample for C6 as stated: the state whose index artifact exists
with zero vectors fails with exactly the same error value as the state with
no artifact at all, so the two failure conditions are not distinct in the
code. -/
theorem spec_c6_counterexample :
    search_embeddings "p" ⟨some ⟨2, []⟩, none⟩ ⟨[1, 2], [[1, 0]]⟩ 5
      = search_embeddings "p" ⟨none, none⟩ ⟨[1, 2], [[1, 0]]⟩ 5 ∧
    search_embeddings "p" ⟨some ⟨2, []⟩, none⟩ ⟨[1, 2], [[1, 0]]⟩ 5
      = .error (.httpError 404 ("No index found for partition " ++ "p")) := by
  constructor <;> rfl

/-- Witness for the amended C6: the empty-artifact state raises the 404
not-found error. -/
theorem spec_c6_empty_state_errors_witness :
    ((⟨some ⟨2, []⟩, none⟩ : PartitionDisk).indexFile = none ∨
      ∃ idx, (⟨some ⟨2, []⟩, none⟩ : PartitionDisk).indexFile = some idx ∧
        idx.entries = []) ∧
    search_embeddings "p" ⟨some ⟨2, []⟩, none⟩ ⟨[1, 2], [[1, 0]]⟩ 3
      = .error (.httpError 404 ("No index found for partition " ++ "p")) :=
  ⟨Or.inr ⟨⟨2, []⟩, rfl, rfl⟩,
    spec_c6_empty_state_errors "p" ⟨some ⟨2, []⟩, none⟩ ⟨[1, 2], [[1, 0]]⟩ 3
      (Or.inr ⟨⟨2, []⟩, rfl, rfl⟩)⟩

/-- C7: normalize rejects any input that is not rank-2 with the shape
ValueError; on rank-2 input it maps each row of positive norm to the row
divided by its norm, maps each all-zero row to itself unchanged, and maps
each row of norm exactly 1 to itself unchanged (in the real-number model
the float tolerance is exact equality, and no NaN or infinity can arise
because the zero norm is replaced by 1 before dividing). -/
theorem spec_c7_normalize :
    (∀ a : NDArr, a.shape.length ≠ 2 →
      normalize_embeddings a
        = .error (.valueError "embeddings must be a 2D array [n, d]")) ∧
    (∀ a : NDArr, a.shape.length = 2 →
      normalize_embeddings a = .ok ⟨a.shape, a.rows.map normalizeRow⟩) ∧
    (∀ r : List ℝ, 0 < l2norm r → normalizeRow r = r.map (· / l2norm r)) ∧
    (∀ r : List ℝ, (∀ x ∈ r, x = 0) → normalizeRow r = r) ∧
    (∀ r : List ℝ, l2norm r = 1 → normalizeRow r = r) := by
  refine ⟨?_, ?_, ?_, ?_, ?_⟩
  · intro a h
    unfold normalize_embeddings
    rw [if_pos h]
  · intro a h
    unfold normalize_embeddings
    rw [if_neg (by omega)]
  · intro r h
    exact normalizeRow_of_pos (ne_of_gt h)
  · intro r h
    exact normalizeRow_of_zero (sumSq_eq_zero_iff.2 h)
  · intro r h
    rw [normalizeRow_of_pos (by rw [h]; norm_num), h]
    simp

/-- Witness for C7: a rank-1 array is rejected; the all-zero row, a
unit-norm row, and a positive-norm row behave as stated. -/
theorem spec_c7_normalize_witness :
    (normalize_embeddings ⟨[3], [[1, 2, 3]]⟩
      = .error (.valueError "embeddings must be a 2D array [n, d]")) ∧
    (normalize_embeddings ⟨[1, 2], [[1, 0]]⟩
      = .ok ⟨[1, 2], [[1, 0]].map normalizeRow⟩) ∧
    (normalizeRow [(3 : ℝ), 4] = [(3 : ℝ), 4].map (· / l2norm [(3 : ℝ), 4])) ∧
    (normalizeRow [(0 : ℝ), 0] = [(0 : ℝ), 0]) ∧
    (normalizeRow [(1 : ℝ), 0] = [(1 : ℝ), 0]) := by
  have hl1 : l2norm [(1 : ℝ), 0] = 1 := by
    rw [l2norm, show sumSq [(1 : ℝ), 0] = 1 by norm_num [sumSq]]
    exact Real.sqrt_one
  have hl34 : 0 < l2norm [(3 : ℝ), 4] := by
    rw [l2norm]
    exact Real.sqrt_pos.mpr (by norm_num [sumSq])
  refine ⟨spec_c7_normalize.1 _ (by decide), spec_c7_normalize.2.1 _ rfl, ?_, ?_, ?_⟩
  · exact spec_c7_normalize.2.2.1 _ hl34
  · exact spec_c7_normalize.2.2.2.1 _ (by norm_num)
  · exact spec_c7_normalize.2.2.2.2 _ hl1

lemma search_ok_spec {part : String} {disk : PartitionDisk} {q : NDArr}
    {k : Nat} {rows : List (List (Int × ℝ × String))}
    (h : search_embeddings part disk q k = .ok rows) :
    ∃ idx qn, disk.indexFile = some idx ∧ idx.entries ≠ [] ∧
      normalize_embeddings q = .ok qn ∧
      rows = qn.rows.map fun qrow =>
        ((faissSearchRow idx k qrow).filter fun t => t.1 != -1).map
          fun t => (t.1, t.2, ((readMetaMap (metaLines disk)) t.1).getD "") := by
  unfold search_embeddings at h
  split at h
  · simp at h
  · next idx hidx =>
    split at h
    · simp at h
    · next hnz =>
      split at h
      · simp at h
      · next qn hnorm =>
        simp only [Except.ok.injEq] at h
        refine ⟨idx, qn, hidx, ?_, hnorm, h.symm⟩
        intro he
        exact hnz (by simp [IndexData.ntotal, he])

lemma search_payload {part : String} {disk : PartitionDisk} {q : NDArr}
    {k : Nat} {rows : List (List (Int × ℝ × String))}
    (h : search_embeddings part disk q k = .ok rows) :
    ∀ row ∈ rows, ∀ t ∈ row,
      t.2.2 = ((readMetaMap (metaLines disk)) t.1).getD "" := by
  obtain ⟨idx, qn, _, _, _, hrows⟩ := search_ok_spec h
  subst hrows
  intro row hrow t ht
  obtain ⟨qrow, _, hq⟩ := List.mem_map.1 hrow
  subst hq
  obtain ⟨t0, _, ht0⟩ := List.mem_map.1 ht
  subst ht0
  rfl

lemma readMetaMap_foldl_filter (lines : List MetaLine) :
    ∀ m : Int → Option String,
      lines.foldl
        (fun m l =>
          match l with
          | .record i p => fun j => if j = i then some p else m j
          | .blank => m
          | .garbage _ => m) m
      = (lines.filter MetaLine.isRecord).foldl
        (fun m l =>
          match l with
          | .record i p => fun j => if j = i then some p else m j
          | .blank => m
          | .garbage _ => m) m := by
  induction lines with
  | nil => intro m; rfl
  | cons l t ih =>
    intro m
    cases l with
    | record i p => simp [List.filter, MetaLine.isRecord, List.foldl_cons, ih]
    | blank => simp [List.filter, MetaLine.isRecord, List.foldl_cons, ih]
    | garbage s => simp [List.filter, MetaLine.isRecord, List.foldl_cons, ih]

/-- C9: every successful store call emits its disk writes with all index
writes strictly before the single metadata append and never in the reverse
order; every interruption before the final write leaves the metadata log
untouched, so it can only produce index entries without payload records;
and for any id a search wins whose record is absent from the metadata map,
the returned payload is the empty string rather than a failure. -/
theorem spec_c9_write_order :
    (∀ (part : String) (disk : PartitionDisk) (emb : NDArr)
        (pls : List String) (ids : List Int) (es : List WEvent),
      store_embeddings part disk emb pls = (.ok ids, es) →
      (∃ iws : List IndexData, es = iws.map WEvent.writeIndex ++
        [WEvent.appendMeta ((ids.zip pls).map fun ip => MetaLine.record ip.1 ip.2)]) ∧
      ∀ n < es.length, (applyEvents disk (es.take n)).metaFile = disk.metaFile) ∧
    (∀ (part : String) (disk : PartitionDisk) (q : NDArr) (k : Nat)
        (rows : List (List (Int × ℝ × String))),
      search_embeddings part disk q k = .ok rows →
      ∀ row ∈ rows, ∀ t ∈ row,
        readMetaMap (metaLines disk) t.1 = none → t.2.2 = "") := by
  constructor
  · intro part disk emb pls ids es h
    obtain ⟨_, iws, hes⟩ := store_ok_main h
    refine ⟨⟨iws, hes⟩, ?_⟩
    intro n hn
    have hlen : es.length = iws.length + 1 := by
      rw [hes]; simp
    have hnle : n ≤ iws.length := by
      rw [hlen] at hn; omega
    have htake : es.take n = (iws.take n).map WEvent.writeIndex := by
      rw [hes, List.take_append_of_le_length (by simpa using hnle), List.map_take]
    rw [htake]
    exact applyEvents_writeIndex_meta _ disk
  · intro part disk q k rows h row hrow t ht hnone
    have hp := search_payload h row hrow t ht
    rw [hp, hnone]
    rfl

/-- Witness for C9: the single-vector store into a fresh partition emits
two index writes followed by the one metadata append, and a search against
an index whose entry has no metadata record returns the empty payload. -/
theorem spec_c9_write_order_witness :
    (store_embeddings "P" freshDisk ⟨[1, 2], [[1, 0]]⟩ ["a"]).1
      = .ok [(0 : Int)] ∧
    (∃ iws : List IndexData,
      (store_embeddings "P" freshDisk ⟨[1, 2], [[1, 0]]⟩ ["a"]).2
        = iws.map WEvent.writeIndex ++
          [WEvent.appendMeta (([(0 : Int)].zip ["a"]).map
            fun ip => MetaLine.record ip.1 ip.2)]) ∧
    search_embeddings "Q" ⟨some ⟨2, [(0, [1, 0])]⟩, none⟩ ⟨[1, 2], [[1, 0]]⟩ 1
      = .ok [[((0 : Int), dot [1, 0] (normalizeRow [1, 0]), "")]] ∧
    ((0 : Int), dot [1, 0] (normalizeRow [1, 0]), "").2.2 = "" := by
  have hst : store_embeddings "P" freshDisk ⟨[1, 2], [[1, 0]]⟩ ["a"]
      = (.ok [(0 : Int)],
          (store_embeddings "P" freshDisk ⟨[1, 2], [[1, 0]]⟩ ["a"]).2) :=
    Prod.ext rfl rfl
  obtain ⟨⟨iws, hes⟩, _⟩ := spec_c9_write_order.1 "P" freshDisk _ _ _ _ hst
  have hsearch : search_embeddings "Q" ⟨some ⟨2, [(0, [1, 0])]⟩, none⟩
      ⟨[1, 2], [[1, 0]]⟩ 1
      = .ok [[((0 : Int), dot [1, 0] (normalizeRow [1, 0]), "")]] := rfl
  refine ⟨rfl, ⟨iws, hes⟩, hsearch, ?_⟩
  exact spec_c9_write_order.2 "Q" _ _ _ _ hsearch
    [((0 : Int), dot [1, 0] (normalizeRow [1, 0]), "")] (by simp)
    ((0 : Int), dot [1, 0] (normalizeRow [1, 0]), "") (by simp) rfl

/-- C10: the id-to-payload map built from the metadata log is insensitive to
blank and unparseable lines (they are skipped, never raised on); whether a
search succeeds does not depend on the metadata log at all; and a winning
id whose record was skipped resolves to the empty-string payload. -/
theorem spec_c10_meta_robustness :
    (∀ lines : List MetaLine,
      readMetaMap lines = readMetaMap (lines.filter MetaLine.isRecord)) ∧
    (∀ (part : String) (idx : Option IndexData)
        (m1 m2 : Option (List MetaLine)) (q : NDArr) (k : Nat),
      exceptOk (search_embeddings part ⟨idx, m1⟩ q k)
        = exceptOk (search_embeddings part ⟨idx, m2⟩ q k)) ∧
    (∀ (part : String) (disk : PartitionDisk) (q : NDArr) (k : Nat)
        (rows : List (List (Int × ℝ × String))),
      search_embeddings part disk q k = .ok rows →
      ∀ row ∈ rows, ∀ t ∈ row,
        t.2.2 = ((readMetaMap (metaLines disk)) t.1).getD "") := by
  refine ⟨?_, ?_, ?_⟩
  · intro lines
    exact readMetaMap_foldl_filter lines _
  · intro part idx m1 m2 q k
    cases idx with
    | none => rfl
    | some i =>
      by_cases hz : i.ntotal = 0
      · simp [search_embeddings, hz]
      · cases hn : normalize_embeddings q with
        | error e => simp [search_embeddings, hz, hn]
        | ok qn => simp [search_embeddings, hz, hn, exceptOk]
  · intro part disk q k rows h
    exact search_payload h

/-- Witness for C10: a log of one garbage line and one blank line yields
the empty map, search success is unaffected by replacing that log, and the
winning id 0, whose record is absent, resolves to the empty payload. -/
theorem spec_c10_meta_robustness_witness :
    readMetaMap [MetaLine.garbage "oops", MetaLine.blank]
      = readMetaMap ([MetaLine.garbage "oops", MetaLine.blank].filter
          MetaLine.isRecord) ∧
    exceptOk (search_embeddings "R" ⟨some ⟨2, [(0, [1, 0])]⟩,
        some [MetaLine.garbage "oops", MetaLine.blank]⟩ ⟨[1, 2], [[1, 0]]⟩ 1)
      = exceptOk (search_embeddings "R" ⟨some ⟨2, [(0, [1, 0])]⟩, none⟩
        ⟨[1, 2], [[1, 0]]⟩ 1) ∧
    search_embeddings "R" ⟨some ⟨2, [(0, [1, 0])]⟩,
        some [MetaLine.garbage "oops", MetaLine.blank]⟩ ⟨[1, 2], [[1, 0]]⟩ 1
      = .ok [[((0 : Int), dot [1, 0] (normalizeRow [1, 0]), "")]] ∧
    ((0 : Int), dot [1, 0] (normalizeRow [1, 0]), "").2.2
      = ((readMetaMap [MetaLine.garbage "oops", MetaLine.blank]) 0).getD "" := by
  have hsearch : search_embeddings "R" ⟨some ⟨2, [(0, [1, 0])]⟩,
      some [MetaLine.garbage "oops", MetaLine.blank]⟩ ⟨[1, 2], [[1, 0]]⟩ 1
      = .ok [[((0 : Int), dot [1, 0] (normalizeRow [1, 0]), "")]] := rfl
  refine ⟨spec_c10_meta_robustness.1 _,
    spec_c10_meta_robustness.2.1 "R" (some ⟨2, [(0, [1, 0])]⟩)
      (some [MetaLine.garbage "oops", MetaLine.blank]) none ⟨[1, 2], [[1, 0]]⟩ 1,
    hsearch, ?_⟩
  exact spec_c10_meta_robustness.2.2 "R" _ _ _ _ hsearch
    [((0 : Int), dot [1, 0] (normalizeRow [1, 0]), "")] (by simp)
    ((0 : Int), dot [1, 0] (normalizeRow [1, 0]), "") (by simp)

lemma filter_pad (m : Nat) :
    (List.replicate m ((-1 : Int), (0 : ℝ))).filter (fun t => t.1 != -1) = [] := by
  induction m with
  | zero => rfl
  | succ n ih => simp [List.replicate_succ, List.filter, ih]

lemma faissSearchRow_filtered (idx : IndexData) (k : Nat) (q : List ℝ) :
    (faissSearchRow idx k q).filter (fun t => t.1 != -1)
      = ((List.insertionSort faissRel
          (idx.entries.map fun e => (e.1, dot e.2 q))).take k).filter
            (fun t => t.1 != -1) := by
  unfold faissSearchRow
  rw [List.filter_append, filter_pad, List.append_nil]

lemma searchRow_sorted (idx : IndexData) (k : Nat) (q : List ℝ) :
    List.Sorted faissRel
      ((faissSearchRow idx k q).filter (fun t => t.1 != -1)) := by
  rw [faissSearchRow_filtered]
  exact List.Pairwise.filter _
    (List.Pairwise.sublist (List.take_sublist _ _)
      (List.sorted_insertionSort faissRel _))

lemma searchRow_length (idx : IndexData) (k : Nat) (q : List ℝ) :
    ((faissSearchRow idx k q).filter (fun t => t.1 != -1)).length ≤ k := by
  rw [faissSearchRow_filtered]
  exact le_trans (List.length_filter_le _ _) (List.length_take_le _ _)

/-- C2: on a non-empty partition and a rank-2 query matrix of the
partition's dimension, search returns one result row per query row; each
row holds at most top_k triples, is sorted best score first with ties
broken by lower Identifier, never contains the sentinel id -1, and every
triple's payload is resolved from the metadata log with empty-string
default. -/
theorem spec_c2_search_results (part : String) (disk : PartitionDisk)
    (idx : IndexData) (q : NDArr) (k : Nat)
    (hidx : disk.indexFile = some idx)
    (hne : idx.entries ≠ [])
    (hq : q.WF2 idx.d) :
    ∃ rows, search_embeddings part disk q k = .ok rows ∧
      rows.length = q.rows.length ∧
      ∀ row ∈ rows,
        row.length ≤ k ∧
        List.Sorted tripleRel row ∧
        ∀ t ∈ row, t.1 ≠ -1 ∧
          t.2.2 = ((readMetaMap (metaLines disk)) t.1).getD "" := by
  have hnz : ¬ idx.ntotal = 0 := by
    simp only [IndexData.ntotal]
    intro h
    exact hne (List.length_eq_zero.1 h)
  have hlen2 : ¬ q.shape.length ≠ 2 := by
    rw [hq.1]
    simp
  have hnorm : normalize_embeddings q = .ok ⟨q.shape, q.rows.map normalizeRow⟩ := by
    unfold normalize_embeddings
    rw [if_neg hlen2]
  have hsearch : search_embeddings part disk q k
      = .ok ((q.rows.map normalizeRow).map fun qrow =>
          ((faissSearchRow idx k qrow).filter fun t => t.1 != -1).map
            fun t => (t.1, t.2, ((readMetaMap (metaLines disk)) t.1).getD "")) := by
    simp only [search_embeddings, hidx, hnorm]
    rw [if_neg hnz]
  refine ⟨_, hsearch, ?_, ?_⟩
  · simp
  · intro row hrow
    obtain ⟨qrow, _, hrw⟩ := List.mem_map.1 hrow
    subst hrw
    refine ⟨?_, ?_, ?_⟩
    · rw [List.length_map]
      exact searchRow_length idx k qrow
    · have hs := searchRow_sorted idx k qrow
      exact List.pairwise_map.2 (hs.imp fun h => h)
    · intro t ht
      obtain ⟨t0, ht0, hgt⟩ := List.mem_map.1 ht
      subst hgt
      have hm := (List.mem_filter.1 ht0).2
      constructor
      · simpa using hm
      · rfl

/-- Witness for C2: a two-vector partition searched with one query row and
top_k 2 satisfies all listed result-shape properties. -/
theorem spec_c2_search_results_witness :
    (⟨2, [(0, [1, 0]), (1, [0, 1])]⟩ : IndexData).entries ≠ [] ∧
    NDArr.WF2 ⟨[1, 2], [[1, 0]]⟩ 2 ∧
    (∃ rows, search_embeddings "P"
        ⟨some ⟨2, [(0, [1, 0]), (1, [0, 1])]⟩,
          some [MetaLine.record 0 "a", MetaLine.record 1 "b"]⟩
        ⟨[1, 2], [[1, 0]]⟩ 2 = .ok rows ∧
      rows.length = (⟨[1, 2], [[1, 0]]⟩ : NDArr).rows.length ∧
      ∀ row ∈ rows, row.length ≤ 2 ∧ List.Sorted tripleRel row ∧
        ∀ t ∈ row, t.1 ≠ -1 ∧
          t.2.2 = ((readMetaMap (metaLines
            ⟨some ⟨2, [(0, [1, 0]), (1, [0, 1])]⟩,
              some [MetaLine.record 0 "a", MetaLine.record 1 "b"]⟩)) t.1).getD "") := by
  have hwf : NDArr.WF2 ⟨[1, 2], [[1, 0]]⟩ 2 := ⟨rfl, by simp⟩
  refine ⟨by simp, hwf, ?_⟩
  exact spec_c2_search_results "P" _ ⟨2, [(0, [1, 0]), (1, [0, 1])]⟩ _ 2 rfl
    (by simp) hwf

lemma sorted_head_max {h : ℝ × Int × String} {t : List (ℝ × Int × String)}
    (hs : List.Sorted aggRel (h :: t)) : ∀ a ∈ h :: t, a.1 ≤ h.1 := by
  intro a ha
  rcases List.mem_cons.1 ha with rfl | ha
  · exact le_refl _
  · exact (List.pairwise_cons.1 hs).1 a ha

/-- C3: a fan-out query with an empty session set fails with the
no-indexed-content error; otherwise it always succeeds with the aggregated
list sorted descending by score and truncated to top_k globally; a
partition whose search raises contributes nothing and is skipped rather
than aborting; and whenever anything was collected at all the first
returned item carries the globally best score. The image fan-out behaves
identically up to its error message. -/
theorem spec_c3_fanout_merge :
    (∀ (fs : FS) (q : NDArr) (k : Nat),
      search_text_fanout [] fs q k
        = .error (.httpError 400 "No indexed content in this session")) ∧
    (∀ (session : List String) (fs : FS) (q : NDArr) (k : Nat),
      session ≠ [] →
      search_text_fanout session fs q k = .ok (fanoutAggregate session fs q k) ∧
      (fanoutAggregate session fs q k).length ≤ k ∧
      List.Sorted scoreDesc (fanoutAggregate session fs q k)) ∧
    (∀ (s1 s2 : List String) (p : String) (fs : FS) (q : NDArr) (k : Nat)
        (e : PyErr),
      search_embeddings p (fs p) q k = .error e →
      collectTriples (s1 ++ p :: s2) fs q k = collectTriples (s1 ++ s2) fs q k) ∧
    (∀ (session : List String) (fs : FS) (q : NDArr) (k : Nat),
      session ≠ [] → 1 ≤ k → collectTriples session fs q k ≠ [] →
      ∃ best, (fanoutAggregate session fs q k).head? = some best ∧
        ∀ a ∈ collectTriples session fs q k, a.1 ≤ best.2.1) ∧
    (∀ (fs : FS) (q : NDArr) (k : Nat),
      search_images_fanout [] fs q k
        = .error (.httpError 400 "No indexed images in this session")) ∧
    (∀ (session : List String) (fs : FS) (q : NDArr) (k : Nat),
      session ≠ [] →
      search_images_fanout session fs q k
        = .ok (fanoutAggregate session fs q k)) := by
  have hsortagg : ∀ (session : List String) (fs : FS) (q : NDArr) (k : Nat),
      List.Sorted scoreDesc (fanoutAggregate session fs q k) := by
    intro session fs q k
    unfold fanoutAggregate
    refine List.pairwise_map.2 ?_
    refine List.Pairwise.sublist (List.take_sublist _ _) ?_
    exact List.sorted_insertionSort aggRel _
  refine ⟨?_, ?_, ?_, ?_, ?_, ?_⟩
  · intro fs q k
    unfold search_text_fanout
    rw [if_pos rfl]
  · intro session fs q k hne
    refine ⟨?_, ?_, hsortagg session fs q k⟩
    · unfold search_text_fanout
      rw [if_neg hne]
    · unfold fanoutAggregate
      rw [List.length_map]
      exact List.length_take_le _ _
  · intro s1 s2 p fs q k e hsr
    unfold collectTriples
    have hp : partRow fs q k p = [] := by
      unfold partRow
      rw [hsr]
    simp [hp]
  · intro session fs q k hne hk hcol
    have hperm := List.perm_insertionSort aggRel (collectTriples session fs q k)
    have hsne : List.insertionSort aggRel (collectTriples session fs q k) ≠ [] := by
      intro h0
      apply hcol
      have hlen := hperm.length_eq
      rw [h0] at hlen
      exact List.length_eq_zero.1 hlen.symm
    obtain ⟨h, t2, hht⟩ := List.exists_cons_of_ne_nil hsne
    obtain ⟨m, rfl⟩ := Nat.exists_eq_add_of_le hk
    refine ⟨(h.2.1, h.1, h.2.2), ?_, ?_⟩
    · unfold fanoutAggregate
      rw [hht, Nat.add_comm 1 m, List.take_succ_cons]
      rfl
    · intro a ha
      have hmem := (hperm.mem_iff).2 ha
      rw [hht] at hmem
      have hsorted := List.sorted_insertionSort aggRel
        (collectTriples session fs q (1 + m))
      rw [hht] at hsorted
      exact sorted_head_max hsorted a hmem
  · intro fs q k
    unfold search_images_fanout
    rw [if_pos rfl]
  · intro session fs q k hne
    unfold search_images_fanout
    rw [if_neg hne]

/-- Concrete two-partition directory used by the fan-out witness:
partition A holds the unit vector along the first axis with payload a,
partition B the unit vector along the second axis with payload b, and
every other partition is untouched. -/
noncomputable def demoFS : FS := fun p =>
  if p = "A" then ⟨some ⟨2, [(0, [1, 0])]⟩, some [.record 0 "a"]⟩
  else if p = "B" then ⟨some ⟨2, [(0, [0, 1])]⟩, some [.record 0 "b"]⟩
  else freshDisk

/-- Witness for C3: with partitions A and B tracked, the empty session
errors, the two-partition fan-out succeeds, the broken partition C is
skipped, and the first returned item has the globally best score. -/
theorem spec_c3_fanout_merge_witness :
    search_text_fanout [] demoFS ⟨[1, 2], [[1, 0]]⟩ 1
      = .error (.httpError 400 "No indexed content in this session") ∧
    search_text_fanout ["A", "B"] demoFS ⟨[1, 2], [[1, 0]]⟩ 1
      = .ok (fanoutAggregate ["A", "B"] demoFS ⟨[1, 2], [[1, 0]]⟩ 1) ∧
    collectTriples (["A"] ++ "C" :: ["B"]) demoFS ⟨[1, 2], [[1, 0]]⟩ 1
      = collectTriples (["A"] ++ ["B"]) demoFS ⟨[1, 2], [[1, 0]]⟩ 1 ∧
    (∃ best, (fanoutAggregate ["A", "B"] demoFS ⟨[1, 2], [[1, 0]]⟩ 1).head?
        = some best ∧
      ∀ a ∈ collectTriples ["A", "B"] demoFS ⟨[1, 2], [[1, 0]]⟩ 1,
        a.1 ≤ best.2.1) ∧
    search_images_fanout [] demoFS ⟨[1, 2], [[1, 0]]⟩ 1
      = .error (.httpError 400 "No indexed images in this session") := by
  have hcol : collectTriples ["A", "B"] demoFS ⟨[1, 2], [[1, 0]]⟩ 1
      = [(dot [1, 0] (normalizeRow [1, 0]), 0, "a"),
          (dot [0, 1] (normalizeRow [1, 0]), 0, "b")] := rfl
  have herr : search_embeddings "C" (demoFS "C") ⟨[1, 2], [[1, 0]]⟩ 1
      = .error (.httpError 404 ("No index found for partition " ++ "C")) := rfl
  exact ⟨spec_c3_fanout_merge.1 demoFS _ 1,
    (spec_c3_fanout_merge.2.1 ["A", "B"] demoFS _ 1 (by simp)).1,
    spec_c3_fanout_merge.2.2.1 ["A"] ["B"] "C" demoFS _ 1 _ herr,
    spec_c3_fanout_merge.2.2.2.1 ["A", "B"] demoFS _ 1 (by simp) (by omega)
      (by rw [hcol]; simp),
    spec_c3_fanout_merge.2.2.2.2.1 demoFS _ 1⟩

/-- Concrete embedding oracle for the ingest scenarios: every input maps to
the one-dimensional unit vector [1]. -/
def noEmbed : List String → NDArr := fun ts => ⟨[ts.length, 1], ts.map fun _ => [1]⟩

/-- Concrete misbehaving embedding oracle: claims zero rows regardless of
how many inputs it was given, which makes the store call raise the arity
error. -/
def badEmbed : List String → NDArr := fun _ => ⟨[0, 1], []⟩

/-- Counterexample for C4 as stated: parsing a web page with empty text and
no images stores zero vectors into either partition (both stay fresh on
disk) yet registers both partition names in the session fan-out sets. -/
theorem spec_c4_counterexample :
    (parse_web_url noEmbed noEmbed freshFS ⟨[], []⟩ "" []).2.textParts
      = ["web_url_text"] ∧
    (parse_web_url noEmbed noEmbed freshFS ⟨[], []⟩ "" []).2.imageParts
      = ["web_url_images"] ∧
    (parse_web_url noEmbed noEmbed freshFS ⟨[], []⟩ "" []).1 "web_url_text"
      = freshDisk ∧
    (parse_web_url noEmbed noEmbed freshFS ⟨[], []⟩ "" []).1 "web_url_images"
      = freshDisk :=
  ⟨rfl, rfl, rfl, rfl⟩

/-- C4 (amended): the session sets are updated exactly when the whole
indexing block of an ingest completes without raising, in which case both
the text and the image partition of that ingest are added together,
regardless of how many vectors (possibly zero) were stored; if any step of
the block raises, neither partition is registered, even when an earlier
step already stored vectors. -/
theorem spec_c4_session_registration
    (embedT embedI : List String → NDArr) (fs : FS) (session : Session)
    (text : String) (imgs : List String) :
    (∀ tids fs1 iids fs2,
      index_text_corpus embedT fs text "web_url_text" = (.ok tids, fs1) →
      index_image_paths embedI fs1 imgs "web_url_images" = (.ok iids, fs2) →
      parse_web_url embedT embedI fs session text imgs
        = (fs2, ⟨insertSet "web_url_text" session.textParts,
            insertSet "web_url_images" session.imageParts⟩)) ∧
    (∀ e fs1,
      index_text_corpus embedT fs text "web_url_text" = (.error e, fs1) →
      parse_web_url embedT embedI fs session text imgs = (fs1, session)) ∧
    (∀ tids fs1 e fs2,
      index_text_corpus embedT fs text "web_url_text" = (.ok tids, fs1) →
      index_image_paths embedI fs1 imgs "web_url_images" = (.error e, fs2) →
      parse_web_url embedT embedI fs session text imgs = (fs2, session)) ∧
    (∀ tids fs1 iids fs2,
      index_text_corpus embedT fs text "doc_text" = (.ok tids, fs1) →
      index_image_paths embedI fs1 imgs "doc_images" = (.ok iids, fs2) →
      parse_document embedT embedI fs session text imgs
        = (fs2, ⟨insertSet "doc_text" session.textParts,
            insertSet "doc_images" session.imageParts⟩)) ∧
    (∀ e fs1,
      index_text_corpus embedT fs text "doc_text" = (.error e, fs1) →
      parse_document embedT embedI fs session text imgs = (fs1, session)) ∧
    (∀ tids fs1 e fs2,
      index_text_corpus embedT fs text "doc_text" = (.ok tids, fs1) →
      index_image_paths embedI fs1 imgs "doc_images" = (.error e, fs2) →
      parse_document embedT embedI fs session text imgs = (fs2, session)) := by
  refine ⟨?_, ?_, ?_, ?_, ?_, ?_⟩
  · intro tids fs1 iids fs2 h1 h2
    simp only [parse_web_url, h1, h2]
  · intro e fs1 h1
    simp only [parse_web_url, h1]
  · intro tids fs1 e fs2 h1 h2
    simp only [parse_web_url, h1, h2]
  · intro tids fs1 iids fs2 h1 h2
    simp only [parse_document, h1, h2]
  · intro e fs1 h1
    simp only [parse_document, h1]
  · intro tids fs1 e fs2 h1 h2
    simp only [parse_document, h1, h2]

/-- Witness for the amended C4: an ingest with empty text and one image
stores one vector, completes without raising, and registers both web
partitions; an ingest whose image embedding misreports its row count makes
the image store raise, and registers nothing. -/
theorem spec_c4_session_registration_witness :
    index_text_corpus noEmbed freshFS "" "web_url_text"
      = (.ok [], freshFS) ∧
    (index_image_paths noEmbed freshFS ["i.png"] "web_url_images").1
      = .ok [(0 : Int)] ∧
    parse_web_url noEmbed noEmbed freshFS ⟨[], []⟩ "" ["i.png"]
      = ((index_image_paths noEmbed freshFS ["i.png"] "web_url_images").2,
          ⟨insertSet "web_url_text" [], insertSet "web_url_images" []⟩) ∧
    (index_image_paths badEmbed freshFS ["i.png"] "web_url_images").1
      = .error (.valueError "Number of embeddings and payloads must match") ∧
    parse_web_url noEmbed badEmbed freshFS ⟨[], []⟩ "" ["i.png"]
      = ((index_image_paths badEmbed freshFS ["i.png"] "web_url_images").2,
          ⟨[], []⟩) := by
  have h1 : index_text_corpus noEmbed freshFS "" "web_url_text"
      = (.ok [], freshFS) := rfl
  have h2 : index_image_paths noEmbed freshFS ["i.png"] "web_url_images"
      = (.ok [(0 : Int)],
          (index_image_paths noEmbed freshFS ["i.png"] "web_url_images").2) :=
    Prod.ext rfl rfl
  have h3 : index_image_paths badEmbed freshFS ["i.png"] "web_url_images"
      = (.error (.valueError "Number of embeddings and payloads must match"),
          (index_image_paths badEmbed freshFS ["i.png"] "web_url_images").2) :=
    Prod.ext rfl rfl
  refine ⟨h1, by rw [h2], ?_, by rw [h3], ?_⟩
  · exact (spec_c4_session_registration noEmbed noEmbed freshFS ⟨[], []⟩ ""
      ["i.png"]).1 [] freshFS [(0 : Int)] _ h1 h2
  · exact (spec_c4_session_registration noEmbed badEmbed freshFS ⟨[], []⟩ ""
      ["i.png"]).2.2.1 [] freshFS _ _ h1 h3

/-- Invariant of store-produced indexes of dimension D: the artifact, when
present, has dimension D and holds only nonnegative ids attached to rows of
length D whose squared norm is at most 1 (normalized rows are unit, all-zero
rows stay zero). -/
def GoodIndex (D : Nat) (disk : PartitionDisk) : Prop :=
  ∀ idx, disk.indexFile = some idx → idx.d = D ∧
    ∀ e ∈ idx.entries, 0 ≤ e.1 ∧ e.2.length = D ∧ sumSq e.2 ≤ 1

lemma store_ok_index {part : String} {disk : PartitionDisk} {emb : NDArr}
    {pls : List String} {ids : List Int} {es : List WEvent}
    (h : store_embeddings part disk emb pls = (.ok ids, es)) :
    ∃ embN idx, normalize_embeddings emb = .ok embN ∧
      (get_or_create_index disk part (embN.shape.getD 1 0)).1 = .ok idx ∧
      (applyEvents disk es).indexFile
        = some ⟨idx.d, idx.entries ++ ids.zip embN.rows⟩ := by
  unfold store_embeddings at h
  split at h
  · simp only [Prod.mk.injEq] at h
    exact absurd h.1 (by simp)
  · next n0 rest hs =>
    split at h
    · simp only [Prod.mk.injEq] at h
      exact absurd h.1 (by simp)
    · next harity =>
      split at h
      · simp only [Prod.mk.injEq] at h
        exact absurd h.1 (by simp)
      · next embN hnorm =>
        split at h
        · simp only [Prod.mk.injEq] at h
          exact absurd h.1 (by simp)
        · next idx hgc =>
          simp only [Prod.mk.injEq, Except.ok.injEq] at h
          obtain ⟨hids, hes⟩ := h
          refine ⟨embN, idx, hnorm, hgc, ?_⟩
          rw [← hes, ← hids, applyEvents_append]
          rfl

lemma storeRun_good {part : String} {disk : PartitionDisk} {emb : NDArr}
    {pls : List String} {ids : List Int} {es : List WEvent} {D : Nat}
    (h : store_embeddings part disk emb pls = (.ok ids, es))
    (hwf : emb.WF2 D) (hgood : GoodIndex D disk) :
    GoodIndex D (applyEvents disk es) := by
  obtain ⟨embN, idx, hnorm, hgc, hfile⟩ := store_ok_index h
  obtain ⟨hshape, hrows, _⟩ := normalize_ok hnorm
  have hdim : embN.shape.getD 1 0 = D := by
    rw [hshape, hwf.1]
    rfl
  have hidxd : idx.d = D := by
    rw [← hdim]
    exact (get_or_create_ok hgc).1
  have hold : ∀ e ∈ idx.entries, 0 ≤ e.1 ∧ e.2.length = D ∧ sumSq e.2 ≤ 1 := by
    rcases (get_or_create_ok hgc).2 with ⟨_, hfr, _⟩ | ⟨hsome, _⟩
    · rw [hfr]
      intro e he
      simp at he
    · exact fun e he => (hgood idx hsome).2 e he
  intro idx1 hidx1
  rw [hfile] at hidx1
  obtain rfl : (⟨idx.d, idx.entries ++ ids.zip embN.rows⟩ : IndexData) = idx1 :=
    Option.some.inj hidx1
  refine ⟨hidxd, ?_⟩
  intro e he
  rcases List.mem_append.1 he with he | he
  · exact hold e he
  · obtain ⟨hid, hvec⟩ := List.of_mem_zip he
    have hobt := store_ok_main h
    constructor
    · rw [hobt.1] at hid
      obtain ⟨i0, _, hi0⟩ := List.mem_map.1 hid
      rw [← hi0]
      exact Int.ofNat_nonneg _
    · rw [hrows] at hvec
      obtain ⟨r0, hr0, hr0v⟩ := List.mem_map.1 hvec
      rw [← hr0v]
      exact ⟨by rw [normalizeRow_length]; exact hwf.2 r0 hr0,
        sumSq_normalizeRow_le_one r0⟩

lemma runStores_good {part : String} (batches : List (NDArr × List String))
    {D : Nat} (hwf : ∀ b ∈ batches, b.1.WF2 D) :
    ∀ (disk : PartitionDisk) (idss : List (List Int)) (d2 : PartitionDisk),
      runStores part disk batches = (.ok idss, d2) →
      GoodIndex D disk → GoodIndex D d2 := by
  induction batches with
  | nil =>
    intro disk idss d2 h hg
    unfold runStores at h
    simp only [Prod.mk.injEq] at h
    rw [← h.2]
    exact hg
  | cons b t ih =>
    intro disk idss d2 h hg
    unfold runStores at h
    split at h
    · simp only [Prod.mk.injEq] at h
      exact absurd h.1 (by simp)
    · next ids hsr =>
      split at h
      · simp only [Prod.mk.injEq] at h
        exact absurd h.1 (by simp)
      · next idss' hrec =>
        simp only [Prod.mk.injEq, Except.ok.injEq] at h
        have hst : store_embeddings part disk b.1 b.2
            = (.ok ids, (store_embeddings part disk b.1 b.2).2) :=
          Prod.ext hsr rfl
        have hg1 : GoodIndex D (storeRun part disk b.1 b.2).2 :=
          storeRun_good hst (hwf b (List.mem_cons_self b t)) hg
        have ht : ∀ x ∈ t, x.1.WF2 D :=
          fun x hx => hwf x (List.mem_cons_of_mem b hx)
        have := (ih ht) _ idss' _ (Prod.ext hrec rfl) hg1
        rw [← h.2]
        exact this

lemma search_top_one (part : String) (disk : PartitionDisk) (idx : IndexData)
    (w : List ℝ) (j : Int) (k : Nat)
    (hidx : disk.indexFile = some idx)
    (hent : ∀ e ∈ idx.entries, 0 ≤ e.1 ∧ e.2.length = w.length ∧ sumSq e.2 ≤ 1)
    (hw : 0 < sumSq w)
    (hmem : (j, normalizeRow w) ∈ idx.entries)
    (hk : 1 ≤ k) :
    ∃ row i,
      search_embeddings part disk ⟨[1, w.length], [w]⟩ k = .ok [row] ∧
      row.head? = some (i, 1, ((readMetaMap (metaLines disk)) i).getD "") ∧
      (i, normalizeRow w) ∈ idx.entries := by
  obtain ⟨m, rfl⟩ := Nat.exists_eq_add_of_le hk
  set qn := normalizeRow w with hqn
  have hqn1 : sumSq qn = 1 := sumSq_normalizeRow_eq_one hw
  have hqnlen : qn.length = w.length := normalizeRow_length w
  have hself : dot qn qn = 1 := by rw [dot_self]; exact hqn1
  have hne : idx.entries ≠ [] := by
    intro h0
    rw [h0] at hmem
    simp at hmem
  have hnz : ¬ idx.ntotal = 0 := by
    simp only [IndexData.ntotal]
    intro h0
    exact hne (List.length_eq_zero.1 h0)
  have hnorm : normalize_embeddings ⟨[1, w.length], [w]⟩
      = .ok ⟨[1, w.length], [qn]⟩ := by
    unfold normalize_embeddings
    rw [if_neg (by simp)]
    rfl
  have hsearch : search_embeddings part disk ⟨[1, w.length], [w]⟩ (1 + m)
      = .ok [((faissSearchRow idx (1 + m) qn).filter fun t => t.1 != -1).map
          fun t => (t.1, t.2, ((readMetaMap (metaLines disk)) t.1).getD "")] := by
    simp only [search_embeddings, hidx, hnorm]
    rw [if_neg hnz]
    rfl
  set scored := idx.entries.map (fun e => (e.1, dot e.2 qn)) with hscored
  have hjm : (j, (1 : ℝ)) ∈ scored := by
    rw [hscored]
    refine List.mem_map.2 ⟨(j, qn), hmem, ?_⟩
    show (j, dot qn qn) = (j, 1)
    rw [hself]
  have hboundAll : ∀ s ∈ scored, s.2 ≤ 1 := by
    intro s hs
    obtain ⟨e, he, hse⟩ := List.mem_map.1 hs
    rw [← hse]
    exact dot_le_one (hent e he).2.2 (le_of_eq hqn1)
  have heq1 : ∀ s ∈ scored, s.2 = 1 → (s.1, qn) ∈ idx.entries ∧ 0 ≤ s.1 := by
    intro s hs h1
    obtain ⟨e, he, hse⟩ := List.mem_map.1 hs
    have hdot : dot e.2 qn = 1 := by
      have : s.2 = dot e.2 qn := by rw [← hse]
      rw [← this, h1]
    have hlen : e.2.length = qn.length := by
      rw [(hent e he).2.1, hqnlen]
    have hev : e.2 = qn := dot_eq_one_imp_eq hlen (hent e he).2.2 hqn1 hdot
    have hs1 : s.1 = e.1 := by rw [← hse]
    constructor
    · rw [hs1, ← hev]
      exact he
    · rw [hs1]
      exact (hent e he).1
  have hperm := List.perm_insertionSort faissRel scored
  have hjms : (j, (1 : ℝ)) ∈ List.insertionSort faissRel scored :=
    (hperm.mem_iff).2 hjm
  have hsne : List.insertionSort faissRel scored ≠ [] := by
    intro h0
    rw [h0] at hjms
    simp at hjms
  obtain ⟨h0, t0, hht⟩ := List.exists_cons_of_ne_nil hsne
  have hsort := List.sorted_insertionSort faissRel scored
  have hh0mem : h0 ∈ scored := (hperm.mem_iff).1 (by rw [hht]; exact List.mem_cons_self _ _)
  have hh0le : h0.2 ≤ 1 := hboundAll h0 hh0mem
  have hh0eq : h0.2 = 1 := by
    have hjms' : (j, (1 : ℝ)) ∈ h0 :: t0 := by rw [← hht]; exact hjms
    rcases List.mem_cons.1 hjms' with hE | hT
    · rw [← hE]
    · have hrel : faissRel h0 (j, 1) := by
        rw [hht] at hsort
        exact (List.pairwise_cons.1 hsort).1 _ hT
      rcases hrel with hlt | ⟨heq, _⟩
      · exact absurd hlt (by simp; linarith)
      · exact heq
  obtain ⟨hh0entry, hh0nn⟩ := heq1 h0 hh0mem hh0eq
  have hbne : (h0.1 != -1) = true := by
    refine bne_iff_ne.2 ?_
    intro hc
    rw [hc] at hh0nn
    omega
  have hfilterEq : (faissSearchRow idx (1 + m) qn).filter (fun t => t.1 != -1)
      = h0 :: ((t0.take m).filter fun t => t.1 != -1) := by
    rw [faissSearchRow_filtered, ← hscored, hht, Nat.add_comm 1 m,
      List.take_succ_cons,
      @List.filter_cons_of_pos _ (fun t => t.1 != -1) h0 (t0.take m) hbne]
  refine ⟨_, h0.1, hsearch, ?_, hh0entry⟩
  rw [hfilterEq, List.map_cons]
  show some (h0.1, h0.2, _) = _
  rw [hh0eq]

/-- C8: reloading a partition from its on-disk artifacts is the identity on
the state search reads (search always goes back to the artifacts, so
results after a restart are identical); and on any state produced by a
sequence of successful store calls of width D from a fresh partition,
searching with a previously stored nonzero vector as the query succeeds and
the top result has score exactly 1 (the real-number reading of 1.0 within
float tolerance) under an Identifier whose stored vector is the normalized
query. -/
theorem spec_c8_round_trip :
    (∀ (part : String) (disk : PartitionDisk) (q : NDArr) (k : Nat),
      search_embeddings part (reloadPartition disk) q k
        = search_embeddings part disk q k) ∧
    (∀ (part : String) (batches : List (NDArr × List String))
        (idss : List (List Int)) (disk2 : PartitionDisk) (idx : IndexData)
        (D : Nat) (w : List ℝ) (j : Int) (k : Nat),
      runStores part freshDisk batches = (.ok idss, disk2) →
      (∀ b ∈ batches, b.1.WF2 D) →
      disk2.indexFile = some idx →
      0 < sumSq w → w.length = D → 1 ≤ k →
      (j, normalizeRow w) ∈ idx.entries →
      ∃ row i,
        search_embeddings part disk2 ⟨[1, D], [w]⟩ k = .ok [row] ∧
        row.head? = some (i, 1, ((readMetaMap (metaLines disk2)) i).getD "") ∧
        (i, normalizeRow w) ∈ idx.entries) := by
  constructor
  · intro part disk q k
    rfl
  · intro part batches idss disk2 idx D w j k hrun hwf hidx hw hwlen hk hmem
    subst hwlen
    have hgood : GoodIndex (List.length w) disk2 :=
      runStores_good batches hwf freshDisk idss disk2 hrun
        (fun i hi => Option.noConfusion hi)
    have hent : ∀ e ∈ idx.entries,
        0 ≤ e.1 ∧ e.2.length = w.length ∧ sumSq e.2 ≤ 1 :=
      fun e he => (hgood idx hidx).2 e he
    exact search_top_one part disk2 idx w j k hidx hent hw hmem hk

/-- Witness for C8: after storing the single unit vector [1, 0] into a
fresh partition, querying with that same vector at top_k 1 returns its
Identifier 0 as the top result with score exactly 1. -/
theorem spec_c8_round_trip_witness :
    runStores "P" freshDisk [demoBatch1]
      = (.ok [[(0 : Int)]], (runStores "P" freshDisk [demoBatch1]).2) ∧
    (∀ b ∈ [demoBatch1], b.1.WF2 2) ∧
    (runStores "P" freshDisk [demoBatch1]).2.indexFile
      = some ⟨2, [((0 : Int), normalizeRow [1, 0])]⟩ ∧
    0 < sumSq [(1 : ℝ), 0] ∧
    (∃ row i, search_embeddings "P" (runStores "P" freshDisk [demoBatch1]).2
        ⟨[1, 2], [[1, 0]]⟩ 1 = .ok [row] ∧
      row.head? = some (i, 1,
        ((readMetaMap (metaLines (runStores "P" freshDisk [demoBatch1]).2)) i).getD "") ∧
      (i, normalizeRow [1, 0]) ∈
        (⟨2, [((0 : Int), normalizeRow [1, 0])]⟩ : IndexData).entries) := by
  have hrun : runStores "P" freshDisk [demoBatch1]
      = (.ok [[(0 : Int)]], (runStores "P" freshDisk [demoBatch1]).2) :=
    Prod.ext rfl rfl
  have hwf : ∀ b ∈ [demoBatch1], b.1.WF2 2 := by
    intro b hb
    rw [List.mem_singleton.1 hb]
    exact ⟨rfl, by simp [demoBatch1]⟩
  have hw : 0 < sumSq [(1 : ℝ), 0] := by norm_num [sumSq]
  refine ⟨hrun, hwf, rfl, hw, ?_⟩
  exact spec_c8_round_trip.2 "P" [demoBatch1] [[(0 : Int)]]
    (runStores "P" freshDisk [demoBatch1]).2
    ⟨2, [((0 : Int), normalizeRow [1, 0])]⟩ 2 [(1 : ℝ), 0] 0 1
    hrun hwf rfl hw (by simp) (by omega) (List.mem_singleton.2 rfl)
